import Mathlib

/-!
Shallow embedding of the parts_data exporters (src/am_atgpu.py, src/nvgpu.py,
src/intcpu.py) and proofs about the normalization, filtering, deduplication,
sorting, formatting and serialization pipeline.

Modelling conventions:
* Python strings are modelled as lists of characters (Str below).  All string
  helpers used by the source (strip, lower, casefold, split, replace, join)
  are re-implemented structurally on Str so that the kernel can evaluate them.
* Python floats are modelled as exact decimal numbers: a pair of an integer
  mantissa m and a decimal exponent e denoting the value m / 10 ^ e.  Every
  numeric literal appearing in the source (amounts parsed from decimal
  strings, the unit multipliers 1, 1/1000, 1/1000000, 1/1000000000, and the
  results of rounding to 3 decimals) is such a decimal, so this idealizes
  binary floating point by exact decimal arithmetic.
* The Python builtin round and the format specifier .3f round half to even,
  which is the rneInt function below.
-/

namespace PartsData

/-- Python strings, modelled as lists of characters. -/
abbrev Str := List Char

/-- Python str.strip with no argument: drop whitespace from both ends. -/
def pyStrip (s : Str) : Str :=
  ((s.dropWhile Char.isWhitespace).reverse.dropWhile Char.isWhitespace).reverse

/-- Python str.lower, per character (ASCII letters; the source only sorts and
matches ASCII marker tokens). Also used for str.casefold, which agrees with
lower on ASCII. -/
def lowerStr (s : Str) : Str := s.map Char.toLower

/-- Python s.split(c) for a one-character separator: splitting the empty
string yields one empty field, and separators at the ends or adjacent
separators yield empty fields, exactly as in Python. -/
def splitOnChar (c : Char) (s : Str) : List Str :=
  s.foldr
    (fun a acc =>
      match acc with
      | [] => [[a]]
      | cur :: rest => if a = c then [] :: cur :: rest else (a :: cur) :: rest)
    [[]]

/-- Python s.split(c, 1): split at the first occurrence of c, or none when c
does not occur in s (which Python code detects with the in operator). -/
def splitFirst (c : Char) : Str → Option (Str × Str)
  | [] => none
  | a :: s =>
    if a = c then some ([], s)
    else (splitFirst c s).map (fun p => (a :: p.1, p.2))

/-- Python s.rstrip(c) for a one-character argument: drop every trailing
occurrence of c. -/
def rstrip (s : Str) (c : Char) : Str :=
  (s.reverse.dropWhile (fun a => a = c)).reverse

/-- Python sep.join(parts). -/
def pyJoin (sep : Str) : List Str → Str
  | [] => []
  | [x] => x
  | x :: y :: rest => x ++ sep ++ pyJoin sep (y :: rest)

/-- Decimal digits of a positive natural number, most significant first.
The first argument is structural fuel; natToChars passes the number itself,
which is enough fuel since a number shrinks by a factor of ten each step. -/
def natToCharsAux : Nat → Nat → List Char
  | 0, _ => []
  | fuel + 1, n =>
    if n = 0 then [] else natToCharsAux fuel (n / 10) ++ [Nat.digitChar (n % 10)]

/-- Decimal rendering of a natural number, as Python str would produce. -/
def natToChars (n : Nat) : Str :=
  if n = 0 then [ '0' ] else natToCharsAux n n

/-- Decimal rendering of an integer, as Python str and f-strings produce. -/
def intChars (i : Int) : Str :=
  if i < 0 then '-' :: natToChars i.natAbs else natToChars i.natAbs

/-- Left pad the decimal rendering of n to three digits with zeros, for the
fractional part of a .3f rendering. -/
def pad3 (n : Nat) : Str :=
  List.replicate (3 - (natToChars n).length) '0' ++ natToChars n

/-- Exact decimal number m / 10 ^ e, the model of a Python float. -/
structure Dec where
  m : Int
  e : Nat
deriving DecidableEq

/-- Rational value of a decimal. -/
def Dec.toRat (x : Dec) : ℚ := (x.m : ℚ) / (10 : ℚ) ^ x.e

/-- Exact product of two decimals; used for amount * multiplier. -/
def decMul (a b : Dec) : Dec := ⟨a.m * b.m, a.e + b.e⟩

/-- Round half to even of m / d for a positive denominator d, the semantics
of the Python builtin round on the exact value. -/
def rneInt (m d : Int) : Int :=
  if 2 * (m % d) < d then m / d
  else if d < 2 * (m % d) then m / d + 1
  else if (m / d) % 2 = 0 then m / d else m / d + 1

/-- Python round(x) for a decimal x: round half to even to an integer. -/
def pyRound (x : Dec) : Int := rneInt x.m ((10 : Int) ^ x.e)

/-- Round a decimal to 3 decimal places half to even, returning the number of
thousandths; this is the Python round(x, 3) with the value scaled by 1000. -/
def round3 (x : Dec) : Int := rneInt (x.m * 1000) ((10 : Int) ^ x.e)

/-- Python f-string rendering with format specifier .3f: the value rounded
half to even to three decimals, with a sign taken from the value and exactly
three digits after the point. -/
def fmt3 (x : Dec) : Str :=
  let n := round3 x
  (if x.m < 0 then [ '-' ] else []) ++
    natToChars (n.natAbs / 1000) ++ '.' :: pad3 (n.natAbs % 1000)

/-- Python x or d for an optional string x and a string default d: None and
the empty string are falsy, any other string is returned unchanged. -/
def pyOrStr (x : Option Str) (d : Str) : Str :=
  match x with
  | none => d
  | some s => if s = [] then d else s

/-- Integer test encoding that the decimal x lies within 1e-9 of the integer
n, that is abs (x - n) < 1 / 10 ^ 9; multiplying through by the positive
denominator 10 ^ x.e turns it into the natural number comparison below. -/
def nearInt (x : Dec) (n : Int) : Bool :=
  (x.m - n * (10 : Int) ^ x.e).natAbs * 1000000000 < 10 ^ x.e

/-- Raw specification record from the external dbgpu database (only the
fields the exporters read). Optional fields model Python None. -/
structure GPUSpecification where
  manufacturer : Str
  name : Option Str
  memory_size_gb : Option Dec
  memory_type : Option Str

/-- Canonical output row of the two GPU exporters. The dataclasses
AmdAtiGpuRow (src/am_atgpu.py) and NvidiaGpuRow (src/nvgpu.py) are
structurally identical string triples, so one structure models both. -/
structure GpuRow where
  name : Str
  memory_capacity : Str
  memory_type : Str
deriving DecidableEq

/-- Method to_line of both row dataclasses. -/
def GpuRow.to_line (r : GpuRow) : Str :=
  '"' :: r.name ++ '"' :: ' ' :: '"' :: r.memory_capacity ++ ' ' :: r.memory_type ++ [ '"' ]

namespace am_atgpu

/-- Function _format_memory_capacity of src/am_atgpu.py lines 20 to 32. -/
def _format_memory_capacity (memory_size_gb : Option Dec) : Str :=
  match memory_size_gb with
  | none => "不明".data
  | some x =>
    if x.m ≤ 0 then "0GB".data
    else
      let rounded := pyRound x
      if nearInt x rounded then intChars rounded ++ "GB".data
      else rstrip (rstrip (fmt3 x) '0') '.' ++ "GB".data

/-- Function _row_from_spec of src/am_atgpu.py lines 35 to 39. -/
def _row_from_spec (spec : GPUSpecification) : GpuRow :=
  ⟨pyStrip (pyOrStr spec.name []),
   _format_memory_capacity spec.memory_size_gb,
   pyStrip (pyOrStr spec.memory_type "不明".data)⟩

/-- Marker tokens of src/am_atgpu.py lines 44 to 52. -/
def console_markers : List Str :=
  ["playstation".data, "psx".data, "xbox".data, "switch".data,
   "nintendo".data, "xenos".data]

/-- Function _is_console_gpu_name of src/am_atgpu.py lines 42 to 53: the
name is casefolded (toLower agrees on the ASCII markers) and matched with
the Python in operator, that is contiguous substring containment. -/
def _is_console_gpu_name (name : Str) : Bool :=
  console_markers.any (fun m => decide (m <:+: lowerStr name))

/-- Function iter_amd_ati_gpu_rows of src/am_atgpu.py lines 56 to 65. -/
def iter_amd_ati_gpu_rows (specs : List GPUSpecification) : List GpuRow :=
  specs.filterMap (fun spec =>
    if spec.manufacturer ≠ "AMD".data ∧ spec.manufacturer ≠ "ATI".data then none
    else if (_row_from_spec spec).name = [] then none
    else if _is_console_gpu_name (_row_from_spec spec).name then none
    else some (_row_from_spec spec))

end am_atgpu

namespace nvgpu

/-- Function _format_memory_capacity of src/nvgpu.py lines 20 to 32. -/
def _format_memory_capacity (memory_size_gb : Option Dec) : Str :=
  match memory_size_gb with
  | none => "不明".data
  | some x =>
    if x.m ≤ 0 then "0GB".data
    else
      let rounded := pyRound x
      if nearInt x rounded then intChars rounded ++ "GB".data
      else rstrip (rstrip (fmt3 x) '0') '.' ++ "GB".data

/-- Function _row_from_spec of src/nvgpu.py lines 35 to 39. -/
def _row_from_spec (spec : GPUSpecification) : GpuRow :=
  ⟨pyStrip (pyOrStr spec.name []),
   _format_memory_capacity spec.memory_size_gb,
   pyStrip (pyOrStr spec.memory_type "不明".data)⟩

/-- Marker tokens of src/nvgpu.py lines 49 to 56. -/
def console_markers : List Str :=
  ["playstation".data, "psx".data, "xbox".data, "switch".data,
   "nintendo".data, "tegra".data]

/-- Function _is_console_gpu_name of src/nvgpu.py lines 42 to 57. -/
def _is_console_gpu_name (name : Str) : Bool :=
  console_markers.any (fun m => decide (m <:+: lowerStr name))

/-- Function iter_nvidia_gpu_rows of src/nvgpu.py lines 60 to 69. -/
def iter_nvidia_gpu_rows (specs : List GPUSpecification) : List GpuRow :=
  specs.filterMap (fun spec =>
    if spec.manufacturer ≠ "NVIDIA".data then none
    else if (_row_from_spec spec).name = [] then none
    else if _is_console_gpu_name (_row_from_spec spec).name then none
    else some (_row_from_spec spec))

end nvgpu

/-- Dedup key of build_unique_sorted_rows: the exact string triple
(r.name, r.memory_capacity, r.memory_type). -/
def key (r : GpuRow) : Str × Str × Str := (r.name, r.memory_capacity, r.memory_type)

/-- Insertion ordered dictionary loop of build_unique_sorted_rows (identical
in src/am_atgpu.py lines 68 to 72 and src/nvgpu.py lines 72 to 76): the dict
keyed by the triple with setdefault keeps the first row for each key, and
values() returns the kept rows in insertion order; it is modelled as the
list of kept rows, appending a row only when its key is not yet present. -/
def build_unique (rows : List GpuRow) : List GpuRow :=
  rows.foldl
    (fun acc r => if acc.any (fun x => key x == key r) then acc else acc ++ [r])
    []

/-- Sort key of build_unique_sorted_rows (src/am_atgpu.py lines 74 to 75 and
src/nvgpu.py lines 78 to 79): the name folded to lowercase, then the two
attribute strings, compared lexicographically as a Python tuple of strings. -/
def sort_key (r : GpuRow) : Lex (Str × Lex (Str × Str)) :=
  toLex (lowerStr r.name, toLex (r.memory_capacity, r.memory_type))

/-- Comparison relation realizing the Python sorted call with the tuple
sort key. -/
def gpuRowLe (a b : GpuRow) : Prop := sort_key a ≤ sort_key b

instance : DecidableRel gpuRowLe :=
  fun a b => inferInstanceAs (Decidable (sort_key a ≤ sort_key b))

instance : IsTotal GpuRow gpuRowLe := ⟨fun a b => le_total (sort_key a) (sort_key b)⟩

instance : IsTrans GpuRow gpuRowLe := ⟨fun _ _ _ hab hbc => le_trans hab hbc⟩

/-- Function build_unique_sorted_rows (identical in src/am_atgpu.py lines 68
to 77 and src/nvgpu.py lines 72 to 81): deduplicate keeping first
occurrences, then sort by the tuple key with a stable sort, as the Python
builtin sorted does. -/
def build_unique_sorted_rows (rows : List GpuRow) : List GpuRow :=
  List.insertionSort gpuRowLe (build_unique rows)

/-- Text written by write_rows (src/am_atgpu.py lines 80 to 84 and
src/nvgpu.py lines 84 to 88): the lines joined by newlines, plus one
trailing newline when there is at least one line. Only the written text is
modelled; path handling and directory creation are file system effects. -/
def write_rows_content (rows : List GpuRow) : Str :=
  let lines := rows.map GpuRow.to_line
  pyJoin [ '\n' ] lines ++ (if lines ≠ [] then [ '\n' ] else [])

namespace intcpu

/-- Table UNIT_TO_GHZ of src/intcpu.py lines 21 to 26, mapping a Wikidata
unit entity URL to the multiplier taking that unit to gigahertz; the float
multipliers 1.0, 1/1000, 1/1000000 and 1/1000000000 are the decimals below. -/
def UNIT_TO_GHZ : List (Str × Dec) :=
  [("http://www.wikidata.org/entity/Q3276763".data, ⟨1, 0⟩),
   ("http://www.wikidata.org/entity/Q732707".data, ⟨1, 3⟩),
   ("http://www.wikidata.org/entity/Q2143992".data, ⟨1, 6⟩),
   ("http://www.wikidata.org/entity/Q39369".data, ⟨1, 9⟩)]

/-- Numeric value of a string of decimal digits. -/
def digitsToNat (s : Str) : Nat := s.foldl (fun n c => 10 * n + (c.toNat - 48)) 0

/-- Test that every character is a decimal digit. -/
def allDigits (s : Str) : Bool := s.all Char.isDigit

/-- Split at the first exponent letter of a float literal. -/
def splitFirstExp : Str → Option (Str × Str)
  | [] => none
  | a :: s =>
    if a = 'e' ∨ a = 'E' then some ([], s)
    else (splitFirstExp s).map (fun p => (a :: p.1, p.2))

/-- Parse the mantissa of a float literal: digits with an optional decimal
point and at least one digit; returns the digits value and the number of
fractional digits. -/
def parseMantissa (s : Str) : Option (Nat × Nat) :=
  match splitFirst '.' s with
  | none => if s ≠ [] ∧ allDigits s then some (digitsToNat s, 0) else none
  | some (ip, fp) =>
    if allDigits ip ∧ allDigits fp ∧ (ip ≠ [] ∨ fp ≠ []) then
      some (digitsToNat (ip ++ fp), fp.length)
    else none

/-- Parse the exponent of a float literal: an optional sign and digits. -/
def parseExp (s : Str) : Option Int :=
  match s with
  | '+' :: t => if t ≠ [] ∧ allDigits t then some ((digitsToNat t : Int)) else none
  | '-' :: t => if t ≠ [] ∧ allDigits t then some (-(digitsToNat t : Int)) else none
  | t => if t ≠ [] ∧ allDigits t then some ((digitsToNat t : Int)) else none

/-- Assemble a parsed float: sign, mantissa value with its count of
fractional digits, and decimal exponent. -/
def mkDec (neg : Bool) (mv : Nat × Nat) (k : Int) : Dec :=
  let mz : Int := if neg then -(mv.1 : Int) else (mv.1 : Int)
  if 0 ≤ k then ⟨mz * 10 ^ k.toNat, mv.2⟩ else ⟨mz, mv.2 + (-k).toNat⟩

/-- Python float(s) on decimal literals: optional surrounding whitespace, an
optional sign, digits with an optional point, and an optional exponent.
The special values inf and nan and underscore separators are outside this
model; no input in the claims uses them. -/
def parseFloat? (s0 : Str) : Option Dec :=
  let s1 := pyStrip s0
  let p : Bool × Str :=
    match s1 with
    | '-' :: t => (true, t)
    | '+' :: t => (false, t)
    | t => (false, t)
  match splitFirstExp p.2 with
  | none => (parseMantissa p.2).map (fun mv => mkDec p.1 mv 0)
  | some (mant, ex) =>
    match parseMantissa mant, parseExp ex with
    | some mv, some k => some (mkDec p.1 mv k)
    | _, _ => none

/-- Function trim_float of src/intcpu.py lines 170 to 173: render with the
format specifier .3f, then strip trailing zeros and a trailing point. -/
def trim_float (x : Dec) : Str := rstrip (rstrip (fmt3 x) '0') '.'

/-- Loop body of parse_freqs_to_str (src/intcpu.py lines 140 to 158): skip
blank parts; a part without a pipe, with an unparsable amount, or with an
unknown unit joins the unknown parts; otherwise the amount times the unit
multiplier joins the parsed gigahertz values. -/
def freqStep (acc : List Dec × List Str) (part : Str) : List Dec × List Str :=
  if pyStrip part = [] then acc
  else
    match splitFirst '|' part with
    | none => (acc.1, acc.2 ++ [part])
    | some (amount_s, unit) =>
      match parseFloat? (amount_s.filter (fun c => c ≠ '+')) with
      | none => (acc.1, acc.2 ++ [part])
      | some amount =>
        match UNIT_TO_GHZ.lookup unit with
        | none => (acc.1, acc.2 ++ [part])
        | some mul => (acc.1 ++ [decMul amount mul], acc.2)

/-- Parsed gigahertz values collected by the loop of parse_freqs_to_str, in
input order. -/
def ghzVals (freqs_raw : Str) : List Dec :=
  ((splitOnChar ';' freqs_raw).foldl freqStep ([], [])).1

/-- Unparsed parts collected by the loop of parse_freqs_to_str, in input
order (collected but never rendered when any value parses). -/
def unknownParts (freqs_raw : Str) : List Str :=
  ((splitOnChar ';' freqs_raw).foldl freqStep ([], [])).2

/-- Rounded, deduplicated and ascending sorted thousandths of gigahertz, the
value of the line ghz_vals = sorted(set(round(x, 3) for x in ghz_vals)) at
src/intcpu.py line 161. -/
def sorted_rounded (freqs_raw : Str) : List Int :=
  List.insertionSort (fun a b => a ≤ b) ((ghzVals freqs_raw).map round3).dedup

/-- Rendering of src/intcpu.py lines 162 to 165 on the sorted thousandths
list (trim_float is applied to each value, which is an exact multiple of
1/1000); an empty list falls through to the raw string, line 168. -/
def renderGhz (sorted : List Int) (freqs_raw : Str) : Str :=
  match sorted with
  | [] => freqs_raw
  | [n] => trim_float ⟨n, 3⟩ ++ "GHz".data
  | n :: m :: rest =>
    trim_float ⟨n, 3⟩ ++ "–".data ++ trim_float ⟨rest.getLastD m, 3⟩ ++ "GHz".data

/-- Function parse_freqs_to_str of src/intcpu.py lines 129 to 168. -/
def parse_freqs_to_str (freqs_raw : Str) : Str :=
  if freqs_raw = [] then "?".data
  else if ghzVals freqs_raw = [] then freqs_raw
  else renderGhz (sorted_rounded freqs_raw) freqs_raw

end intcpu

/-- Collapse rows sharing an identical key triple to the first occurrence in
input order: the characterization, from the claim, that the dict loop of
build_unique_sorted_rows is proved to satisfy. -/
def dedupSpec : List GpuRow → List GpuRow
  | [] => []
  | r :: rs => r :: dedupSpec (rs.filter (fun x => decide (key x ≠ key r)))
termination_by l => l.length
decreasing_by simpa using Nat.lt_succ_of_le (List.length_filter_le _ _)

/-- Accumulator form of first occurrence keeping: rows whose key occurs in
seen are dropped, and each kept key is added to seen. -/
def firstOccAux (seen : List (Str × Str × Str)) : List GpuRow → List GpuRow
  | [] => []
  | r :: rs =>
    if key r ∈ seen then firstOccAux seen rs
    else r :: firstOccAux (key r :: seen) rs

/-! Lemmas about the deduplication loop. -/

theorem firstOccAux_congr : ∀ (l : List GpuRow) {s₁ s₂ : List (Str × Str × Str)},
    (∀ k, k ∈ s₁ ↔ k ∈ s₂) → firstOccAux s₁ l = firstOccAux s₂ l := by
  intro l
  induction l with
  | nil => intro s₁ s₂ _; rfl
  | cons r rs ih =>
    intro s₁ s₂ h
    by_cases hk : key r ∈ s₁
    · rw [firstOccAux, firstOccAux, if_pos hk, if_pos ((h _).mp hk)]
      exact ih h
    · rw [firstOccAux, firstOccAux, if_neg hk, if_neg (fun hh => hk ((h _).mpr hh))]
      exact congrArg (r :: ·) (ih (fun k => by simp only [List.mem_cons, h k]))

theorem build_unique_go : ∀ (l acc : List GpuRow),
    l.foldl (fun acc r => if acc.any (fun x => key x == key r) then acc else acc ++ [r]) acc
      = acc ++ firstOccAux (acc.map key) l := by
  intro l
  induction l with
  | nil => intro acc; simp [firstOccAux]
  | cons r rs ih =>
    intro acc
    rw [List.foldl_cons]
    by_cases h : key r ∈ acc.map key
    · have hb : (acc.any fun x => key x == key r) = true := by
        rcases List.mem_map.mp h with ⟨x, hx, hkx⟩
        exact List.any_eq_true.mpr ⟨x, hx, by simp [hkx]⟩
      rw [if_pos hb, ih acc, firstOccAux, if_pos h]
    · have hb : ¬ (acc.any fun x => key x == key r) = true := by
        intro hc
        rcases List.any_eq_true.mp hc with ⟨x, hx, hkx⟩
        exact h (List.mem_map.mpr ⟨x, hx, by simpa using hkx⟩)
      have hcongr : firstOccAux (acc.map key ++ [key r]) rs
          = firstOccAux (key r :: acc.map key) rs :=
        firstOccAux_congr rs (fun k => by simp [or_comm])
      rw [if_neg hb, ih (acc ++ [r]), firstOccAux, if_neg h, List.map_append]
      simp only [List.map_cons, List.map_nil]
      rw [hcongr, List.append_assoc, List.singleton_append]

theorem firstOccAux_eq_dedupSpec : ∀ (l : List GpuRow) (seen : List (Str × Str × Str)),
    firstOccAux seen l = dedupSpec (l.filter (fun r => decide (key r ∉ seen))) := by
  intro l
  induction l with
  | nil => intro seen; simp [firstOccAux, dedupSpec]
  | cons r rs ih =>
    intro seen
    rw [firstOccAux, List.filter_cons]
    by_cases h : key r ∈ seen
    · rw [if_pos h]
      have hd : (decide (key r ∉ seen)) = false := by simp [h]
      rw [hd]
      simpa using ih seen
    · rw [if_neg h]
      have hd : (decide (key r ∉ seen)) = true := by simp [h]
      rw [hd]
      simp only [if_true]
      rw [dedupSpec, ih (key r :: seen), List.filter_filter]
      refine congrArg (r :: ·) (congrArg dedupSpec (congrArg (rs.filter ·) ?_))
      funext x
      by_cases h1 : key x = key r <;> by_cases h2 : key x ∈ seen <;> simp [h1, h2]

theorem build_unique_eq_dedupSpec (rows : List GpuRow) :
    build_unique rows = dedupSpec rows := by
  rw [build_unique, build_unique_go rows [], firstOccAux_eq_dedupSpec]
  simp

theorem dedupSpec_subset : ∀ l : List GpuRow, dedupSpec l ⊆ l := by
  intro l
  induction l using dedupSpec.induct with
  | case1 => simp [dedupSpec]
  | case2 r rs ih =>
    rw [dedupSpec]
    intro x hx
    rcases List.mem_cons.mp hx with hx | hx
    · exact hx ▸ List.mem_cons_self r rs
    · exact List.mem_cons_of_mem r (List.mem_of_mem_filter (ih hx))

theorem dedupSpec_keys_nodup : ∀ l : List GpuRow, ((dedupSpec l).map key).Nodup := by
  intro l
  induction l using dedupSpec.induct with
  | case1 => simp [dedupSpec]
  | case2 r rs ih =>
    rw [dedupSpec]
    simp only [List.map_cons, List.nodup_cons]
    refine ⟨fun hmem => ?_, ih⟩
    rcases List.mem_map.mp hmem with ⟨x, hx, hkx⟩
    have hxf := dedupSpec_subset _ hx
    have := List.of_mem_filter hxf
    simp only [decide_eq_true_eq] at this
    exact this hkx

/-- C1: build_unique_sorted_rows collapses rows sharing an identical
(name, attribute, attribute) triple to the first occurrence in input order
(rows differing in any field of the triple both survive, since dedupSpec
filters on the full triple), and the result is sorted with primary key the
name folded to lowercase and, for equal folded names, by raw lexicographic
comparison of the two formatted attribute fields; the kept triples are
pairwise distinct. -/
theorem claim_C1_dedup_and_sort (rows : List GpuRow) :
    (build_unique_sorted_rows rows).Perm (dedupSpec rows)
    ∧ List.Sorted (fun a b => sort_key a ≤ sort_key b) (build_unique_sorted_rows rows)
    ∧ ((build_unique_sorted_rows rows).map key).Nodup := by
  have hperm : (build_unique_sorted_rows rows).Perm (build_unique rows) :=
    List.perm_insertionSort _ _
  rw [build_unique_eq_dedupSpec] at hperm
  refine ⟨hperm, ?_, ?_⟩
  · exact List.sorted_insertionSort gpuRowLe (build_unique rows)
  · exact (hperm.map key).nodup_iff.mpr (dedupSpec_keys_nodup rows)

/-! Lemmas about last characters, for the writer claim. -/

theorem glqCons {c : Char} : ∀ {l : Str} (a : Char),
    l.getLast? = some c → (a :: l).getLast? = some c := by
  intro l a h
  cases l with
  | nil => simp at h
  | cons b t => rw [List.getLast?_cons_cons]; exact h

theorem glqApp {c : Char} : ∀ (l₁ : Str) {l₂ : Str},
    l₂.getLast? = some c → (l₁ ++ l₂).getLast? = some c := by
  intro l₁
  induction l₁ with
  | nil => intro l₂ h; simpa using h
  | cons a t ih => intro l₂ h; rw [List.cons_append]; exact glqCons a (ih h)

theorem to_line_getLast? (r : GpuRow) : (GpuRow.to_line r).getLast? = some '"' := by
  rw [GpuRow.to_line]
  exact glqApp _ rfl

theorem pyJoin_glq (sep : Str) (c : Char) :
    ∀ lines : List Str, lines ≠ [] → (∀ l ∈ lines, l.getLast? = some c) →
      (pyJoin sep lines).getLast? = some c := by
  intro lines
  induction lines with
  | nil => intro h _; exact absurd rfl h
  | cons x rest ih =>
    intro _ hall
    cases rest with
    | nil => exact hall x (by simp)
    | cons y rest2 =>
      rw [pyJoin]
      exact glqApp _ (ih (by simp) (fun l hl => hall l (List.mem_cons_of_mem x hl)))

/-- C10: the AMD/ATI and NVIDIA capacity formatters are extensionally equal:
on every optional numeric input they return the same string. -/
theorem claim_C10_formatters_equal (x : Option Dec) :
    am_atgpu._format_memory_capacity x = nvgpu._format_memory_capacity x := rfl

/-- C6 counterexample: both capacity formatters applied to None return the
Japanese locale placeholder, which is not the string "unknown". -/
theorem claim_C6_counterexample :
    am_atgpu._format_memory_capacity none = "不明".data
    ∧ nvgpu._format_memory_capacity none = "不明".data
    ∧ "不明".data ≠ "unknown".data :=
  ⟨rfl, rfl, by decide⟩

/-- C6 amended: the capacity formatter applied to a missing (None) memory
size returns the locale placeholder string (the Japanese word for unknown),
in both exporters. -/
theorem claim_C6_amended_format_none :
    am_atgpu._format_memory_capacity none = "不明".data
    ∧ nvgpu._format_memory_capacity none = "不明".data :=
  ⟨rfl, rfl⟩

/-- C8: in both GPU exporters the category filter excludes a name exactly
when the lowercase folded name contains some marker token of the fixed list
as a contiguous substring; in particular every name containing the word
Xbox in any letter case is excluded regardless of other content. -/
theorem claim_C8_console_filter (name : Str) :
    (am_atgpu._is_console_gpu_name name = true
       ↔ ∃ m ∈ am_atgpu.console_markers, m <:+: lowerStr name)
    ∧ (nvgpu._is_console_gpu_name name = true
       ↔ ∃ m ∈ nvgpu.console_markers, m <:+: lowerStr name)
    ∧ (∀ pre x post, name = pre ++ x ++ post → lowerStr x = "xbox".data →
        am_atgpu._is_console_gpu_name name = true
        ∧ nvgpu._is_console_gpu_name name = true) := by
  refine ⟨?_, ?_, ?_⟩
  · simp [am_atgpu._is_console_gpu_name, List.any_eq_true]
  · simp [nvgpu._is_console_gpu_name, List.any_eq_true]
  · intro pre x post hname hlx
    have hinf : "xbox".data <:+: lowerStr name :=
      ⟨lowerStr pre, lowerStr post, by
        simp only [lowerStr] at hlx ⊢
        rw [hname, List.map_append, List.map_append, ← hlx]⟩
    constructor
    · exact List.any_eq_true.mpr ⟨"xbox".data, by decide, decide_eq_true hinf⟩
    · exact List.any_eq_true.mpr ⟨"xbox".data, by decide, decide_eq_true hinf⟩

/-- C8 witness: a concrete name containing XBOX in upper case is excluded
by both exporters. -/
theorem claim_C8_witness :
    am_atgpu._is_console_gpu_name "The XBOX 360".data = true
    ∧ nvgpu._is_console_gpu_name "The XBOX 360".data = true :=
  (claim_C8_console_filter "The XBOX 360".data).2.2
    "The ".data "XBOX".data " 360".data (by decide) (by decide)

/-- C9: the writer serializes an empty row sequence to empty file content,
and a non-empty sequence to the lines joined by newlines with the content
ending in exactly one trailing newline character (the character before the
final newline is never itself a newline). -/
theorem claim_C9_writer (rows : List GpuRow) :
    (rows = [] → write_rows_content rows = [])
    ∧ (rows ≠ [] →
        write_rows_content rows
            = pyJoin [ '\n' ] (rows.map GpuRow.to_line) ++ [ '\n' ]
          ∧ ∃ body, write_rows_content rows = body ++ [ '\n' ]
              ∧ body.getLast? ≠ some '\n') := by
  constructor
  · intro h; subst h; rfl
  · intro h
    have hmap : rows.map GpuRow.to_line ≠ [] := by simpa using h
    have heq : write_rows_content rows
        = pyJoin [ '\n' ] (rows.map GpuRow.to_line) ++ [ '\n' ] := by
      rw [write_rows_content]
      simp only [if_pos hmap]
    refine ⟨heq, pyJoin [ '\n' ] (rows.map GpuRow.to_line), heq, ?_⟩
    have hlast : (pyJoin [ '\n' ] (rows.map GpuRow.to_line)).getLast? = some '"' := by
      apply pyJoin_glq _ _ _ hmap
      intro l hl
      rcases List.mem_map.mp hl with ⟨r, _, hr⟩
      exact hr ▸ to_line_getLast? r
    rw [hlast]
    simp

/-- C9 witness: the writer at the empty list and at one concrete row. -/
theorem claim_C9_witness :
    write_rows_content [] = []
    ∧ (write_rows_content [⟨"A".data, "1GB".data, "DDR3".data⟩]
          = pyJoin [ '\n' ] ([(⟨"A".data, "1GB".data, "DDR3".data⟩ : GpuRow)].map
              GpuRow.to_line) ++ [ '\n' ]
        ∧ ∃ body, write_rows_content [(⟨"A".data, "1GB".data, "DDR3".data⟩ : GpuRow)]
              = body ++ [ '\n' ] ∧ body.getLast? ≠ some '\n') :=
  ⟨(claim_C9_writer []).1 rfl,
   (claim_C9_writer [⟨"A".data, "1GB".data, "DDR3".data⟩]).2 (by decide)⟩

/-! Lemmas about the normalized row fields. -/

theorem am_format_ne_nil (x : Option Dec) : am_atgpu._format_memory_capacity x ≠ [] := by
  cases x with
  | none => rw [am_atgpu._format_memory_capacity]; decide
  | some v =>
    rw [am_atgpu._format_memory_capacity]
    by_cases h1 : v.m ≤ 0
    · rw [if_pos h1]; decide
    · rw [if_neg h1]
      show (if nearInt v (pyRound v) = true then intChars (pyRound v) ++ "GB".data
        else rstrip (rstrip (fmt3 v) '0') '.' ++ "GB".data) ≠ []
      by_cases h2 : nearInt v (pyRound v) = true
      · rw [if_pos h2]; intro hc
        exact absurd (List.append_eq_nil.mp hc).2 (by decide)
      · rw [if_neg h2]; intro hc
        exact absurd (List.append_eq_nil.mp hc).2 (by decide)

theorem nv_format_ne_nil (x : Option Dec) : nvgpu._format_memory_capacity x ≠ [] := by
  cases x with
  | none => rw [nvgpu._format_memory_capacity]; decide
  | some v =>
    rw [nvgpu._format_memory_capacity]
    by_cases h1 : v.m ≤ 0
    · rw [if_pos h1]; decide
    · rw [if_neg h1]
      show (if nearInt v (pyRound v) = true then intChars (pyRound v) ++ "GB".data
        else rstrip (rstrip (fmt3 v) '0') '.' ++ "GB".data) ≠ []
      by_cases h2 : nearInt v (pyRound v) = true
      · rw [if_pos h2]; intro hc
        exact absurd (List.append_eq_nil.mp hc).2 (by decide)
      · rw [if_neg h2]; intro hc
        exact absurd (List.append_eq_nil.mp hc).2 (by decide)

theorem am_row_memory_type_eq (spec : GPUSpecification) :
    (am_atgpu._row_from_spec spec).memory_type = []
      ↔ ∃ s, spec.memory_type = some s ∧ s ≠ [] ∧ pyStrip s = [] := by
  show pyStrip (pyOrStr spec.memory_type "不明".data) = [] ↔ _
  cases hmt : spec.memory_type with
  | none =>
    rw [pyOrStr]
    constructor
    · intro hc; exact absurd hc (by decide)
    · rintro ⟨s, hs, -, -⟩; cases hs
  | some s =>
    by_cases hse : s = []
    · subst hse
      rw [pyOrStr, if_pos rfl]
      constructor
      · intro hc; exact absurd hc (by decide)
      · rintro ⟨t, ht, htne, -⟩; cases ht; exact absurd rfl htne
    · rw [pyOrStr, if_neg hse]
      constructor
      · intro hc; exact ⟨s, rfl, hse, hc⟩
      · rintro ⟨t, ht, -, htp⟩; cases ht; exact htp

theorem nv_row_memory_type_eq (spec : GPUSpecification) :
    (nvgpu._row_from_spec spec).memory_type = []
      ↔ ∃ s, spec.memory_type = some s ∧ s ≠ [] ∧ pyStrip s = [] :=
  am_row_memory_type_eq spec

/-- C2 counterexample: a retained row whose raw memory type is a non-empty
whitespace-only string has an empty memory type field: normalization strips
it to the empty string, not to a placeholder, and the pipeline keeps the
row. -/
theorem claim_C2_counterexample :
    (am_atgpu._row_from_spec
        ⟨"AMD".data, some "RX 1".data, none, some " ".data⟩).memory_type = []
    ∧ (am_atgpu.iter_amd_ati_gpu_rows
        [⟨"AMD".data, some "RX 1".data, none, some " ".data⟩]).map GpuRow.memory_type
      = [[]] := by
  exact ⟨by decide, by decide⟩

/-- C2 amended: every row retained by the pipeline has a non-empty name and
a non-empty capacity field, and the capacity field of every normalized row
is non-empty; the memory type field of a normalized row is empty exactly
when the raw memory type is a non-empty whitespace-only string (missing or
empty raw data becomes the placeholder, never the empty string). -/
theorem claim_C2_nonempty_fields :
    (∀ specs r, r ∈ am_atgpu.iter_amd_ati_gpu_rows specs →
        r.name ≠ [] ∧ r.memory_capacity ≠ [])
    ∧ (∀ spec : GPUSpecification,
        (am_atgpu._row_from_spec spec).memory_capacity ≠ []
        ∧ ((am_atgpu._row_from_spec spec).memory_type = []
             ↔ ∃ s, spec.memory_type = some s ∧ s ≠ [] ∧ pyStrip s = []))
    ∧ (∀ specs r, r ∈ nvgpu.iter_nvidia_gpu_rows specs →
        r.name ≠ [] ∧ r.memory_capacity ≠ [])
    ∧ (∀ spec : GPUSpecification,
        (nvgpu._row_from_spec spec).memory_capacity ≠ []
        ∧ ((nvgpu._row_from_spec spec).memory_type = []
             ↔ ∃ s, spec.memory_type = some s ∧ s ≠ [] ∧ pyStrip s = [])) := by
  refine ⟨?_, ?_, ?_, ?_⟩
  · intro specs r hr
    rcases List.mem_filterMap.mp hr with ⟨spec, -, hspec⟩
    split_ifs at hspec with h1 h2 h3
    · cases hspec
      exact ⟨h2, am_format_ne_nil spec.memory_size_gb⟩
  · intro spec
    exact ⟨am_format_ne_nil spec.memory_size_gb, am_row_memory_type_eq spec⟩
  · intro specs r hr
    rcases List.mem_filterMap.mp hr with ⟨spec, -, hspec⟩
    split_ifs at hspec with h1 h2 h3
    · cases hspec
      exact ⟨h2, nv_format_ne_nil spec.memory_size_gb⟩
  · intro spec
    exact ⟨nv_format_ne_nil spec.memory_size_gb, nv_row_memory_type_eq spec⟩

/-- C2 witness: the amended theorem applied to one concrete retained row in
each exporter. -/
theorem claim_C2_witness :
    ((⟨"RX".data, "8GB".data, "GDDR6".data⟩ : GpuRow).name ≠ []
      ∧ (⟨"RX".data, "8GB".data, "GDDR6".data⟩ : GpuRow).memory_capacity ≠ [])
    ∧ ((⟨"GT".data, "8GB".data, "GDDR6".data⟩ : GpuRow).name ≠ []
      ∧ (⟨"GT".data, "8GB".data, "GDDR6".data⟩ : GpuRow).memory_capacity ≠ []) :=
  ⟨claim_C2_nonempty_fields.1
      [⟨"AMD".data, some " RX ".data, some ⟨8, 0⟩, some "GDDR6".data⟩]
      ⟨"RX".data, "8GB".data, "GDDR6".data⟩ (by decide),
   claim_C2_nonempty_fields.2.2.1
      [⟨"NVIDIA".data, some " GT ".data, some ⟨8, 0⟩, some "GDDR6".data⟩]
      ⟨"GT".data, "8GB".data, "GDDR6".data⟩ (by decide)⟩

/-! Lemmas about sorted integer lists, for the frequency claims. -/

theorem getLast?_cons_cons_eq : ∀ (l : List Int) (a b : Int),
    (a :: b :: l).getLast? = some (l.getLastD b) := by
  intro l
  induction l with
  | nil => intro a b; rfl
  | cons c t ih =>
    intro a b
    rw [List.getLast?_cons_cons, ih b c, List.getLastD_cons]

theorem sorted_le_getLastD : ∀ (l : List Int) (a : Int),
    List.Sorted (fun x y : Int => x ≤ y) (a :: l) →
      ∀ v ∈ a :: l, v ≤ l.getLastD a := by
  intro l
  induction l with
  | nil =>
    intro a _ v hv
    rw [List.mem_singleton.mp hv]
    exact le_refl _
  | cons b t ih =>
    intro a hs v hv
    have hpc := List.pairwise_cons.mp hs
    rw [List.getLastD_cons]
    rcases List.mem_cons.mp hv with hv | hv
    · subst hv
      exact hpc.1 _ (List.getLastD_mem_cons t b)
    · exact ih b hpc.2 v hv

/-- C5: with zero parsed entries the frequency formatter returns the
literal unparsed input string verbatim (separators included) when the
input is non-empty, and the single unknown marker of this exporter (the
question mark) when the input is empty. -/
theorem claim_C5_no_parse (s : Str) :
    (s = [] → intcpu.parse_freqs_to_str s = "?".data)
    ∧ (s ≠ [] → intcpu.ghzVals s = [] → intcpu.parse_freqs_to_str s = s) := by
  constructor
  · intro h
    rw [intcpu.parse_freqs_to_str, if_pos h]
  · intro h hz
    rw [intcpu.parse_freqs_to_str, if_neg h, if_pos hz]

/-- C5 witness: the empty input and an input whose two entries fail to
parse (no pipe, and an unknown unit). -/
theorem claim_C5_witness :
    intcpu.parse_freqs_to_str [] = "?".data
    ∧ intcpu.parse_freqs_to_str "junk;2.5|http://example".data
        = "junk;2.5|http://example".data :=
  ⟨(claim_C5_no_parse []).1 rfl,
   (claim_C5_no_parse "junk;2.5|http://example".data).2 (by decide) (by decide)⟩

/-- C3: when at least one entry parses, the output of the frequency
formatter is the rendering of the parsed amounts converted to gigahertz by
the multiplier table, rounded half to even to 3 decimals (integer
thousandths), deduplicated and sorted strictly ascending; unparsed entries
do not reach the rendering. -/
theorem claim_C3_parsed_pipeline (s : Str) (h : intcpu.ghzVals s ≠ []) :
    ∃ vals : List Int,
      List.Sorted (fun a b : Int => a < b) vals
      ∧ (∀ n, n ∈ vals ↔ n ∈ (intcpu.ghzVals s).map round3)
      ∧ intcpu.parse_freqs_to_str s = intcpu.renderGhz vals s := by
  refine ⟨intcpu.sorted_rounded s, ?_, ?_, ?_⟩
  · have hs : List.Sorted (fun a b : Int => a ≤ b) (intcpu.sorted_rounded s) :=
      List.sorted_insertionSort _ _
    have hn : (intcpu.sorted_rounded s).Nodup :=
      (List.perm_insertionSort _ _).nodup_iff.mpr (List.nodup_dedup _)
    exact hs.lt_of_le hn
  · intro n
    rw [intcpu.sorted_rounded, (List.perm_insertionSort _ _).mem_iff, List.mem_dedup]
  · have hne : s ≠ [] := by
      intro hc
      subst hc
      exact h rfl
    rw [intcpu.parse_freqs_to_str, if_neg hne, if_neg h]

/-- C3 witness: one parsed gigahertz entry next to one unparsed entry. -/
theorem claim_C3_witness :
    intcpu.ghzVals "2.7|http://www.wikidata.org/entity/Q3276763;junk".data ≠ []
    ∧ ∃ vals : List Int,
        List.Sorted (fun a b : Int => a < b) vals
        ∧ (∀ n, n ∈ vals ↔
            n ∈ (intcpu.ghzVals
                  "2.7|http://www.wikidata.org/entity/Q3276763;junk".data).map round3)
        ∧ intcpu.parse_freqs_to_str "2.7|http://www.wikidata.org/entity/Q3276763;junk".data
            = intcpu.renderGhz vals "2.7|http://www.wikidata.org/entity/Q3276763;junk".data :=
  ⟨by decide,
   claim_C3_parsed_pipeline "2.7|http://www.wikidata.org/entity/Q3276763;junk".data
     (by decide)⟩

/-- C4 counterexample: with two distinct parsed values the formatter output
carries a single unit suffix after the maximum; the minimum before the
en-dash is bare, so the claim that both values are unit-suffixed fails. -/
theorem claim_C4_counterexample :
    intcpu.parse_freqs_to_str
        "2.7|http://www.wikidata.org/entity/Q3276763;3.9|http://www.wikidata.org/entity/Q3276763".data
      = "2.7–3.9GHz".data
    ∧ "2.7–3.9GHz".data ≠ "2.7GHz–3.9GHz".data
    ∧ splitOnChar '–' "2.7–3.9GHz".data = ["2.7".data, "3.9GHz".data]
    ∧ ¬ "GHz".data <:+ "2.7".data :=
  ⟨by decide, by decide, by decide, by decide⟩

/-- C4 amended: with two or more distinct parsed values the formatter
returns the minimum and the maximum joined by an en-dash with the unit
suffix appended once after the maximum, and no representation of
intermediate values: the output is built from the first and last entries of
the sorted value list only. -/
theorem claim_C4_min_max (s : Str) (h2 : 2 ≤ (intcpu.sorted_rounded s).length) :
    ∃ lo hi,
      (intcpu.sorted_rounded s).head? = some lo
      ∧ (intcpu.sorted_rounded s).getLast? = some hi
      ∧ (∀ v ∈ intcpu.sorted_rounded s, lo ≤ v ∧ v ≤ hi)
      ∧ intcpu.parse_freqs_to_str s
          = intcpu.trim_float ⟨lo, 3⟩ ++ "–".data
              ++ intcpu.trim_float ⟨hi, 3⟩ ++ "GHz".data := by
  obtain ⟨n, m, rest, hv⟩ : ∃ n m rest, intcpu.sorted_rounded s = n :: m :: rest := by
    cases hval : intcpu.sorted_rounded s with
    | nil => rw [hval] at h2; simp at h2
    | cons n t =>
      cases t with
      | nil => rw [hval] at h2; simp at h2
      | cons m rest => exact ⟨n, m, rest, rfl⟩
  have hg : intcpu.ghzVals s ≠ [] := by
    intro hc
    have hnil : intcpu.sorted_rounded s = [] := by
      rw [intcpu.sorted_rounded, hc]; rfl
    rw [hnil] at hv
    cases hv
  have hne : s ≠ [] := by
    intro hc
    subst hc
    exact hg rfl
  have hs : List.Sorted (fun a b : Int => a ≤ b) (intcpu.sorted_rounded s) :=
    List.sorted_insertionSort _ _
  refine ⟨n, rest.getLastD m, ?_, ?_, ?_, ?_⟩
  · rw [hv]; rfl
  · rw [hv]; exact getLast?_cons_cons_eq rest n m
  · intro v hvmem
    rw [hv] at hs hvmem
    constructor
    · rcases List.mem_cons.mp hvmem with h | h
      · exact h ▸ le_refl _
      · exact (List.pairwise_cons.mp hs).1 v h
    · have := sorted_le_getLastD (m :: rest) n hs v hvmem
      rwa [List.getLastD_cons] at this
  · rw [intcpu.parse_freqs_to_str, if_neg hne, if_neg hg, hv, intcpu.renderGhz]

/-- C4 witness: the amended theorem at a concrete two-value input. -/
theorem claim_C4_witness :
    2 ≤ (intcpu.sorted_rounded
          "2.7|http://www.wikidata.org/entity/Q3276763;3.9|http://www.wikidata.org/entity/Q3276763".data).length
    ∧ ∃ lo hi,
        (intcpu.sorted_rounded
          "2.7|http://www.wikidata.org/entity/Q3276763;3.9|http://www.wikidata.org/entity/Q3276763".data).head?
            = some lo
        ∧ (intcpu.sorted_rounded
            "2.7|http://www.wikidata.org/entity/Q3276763;3.9|http://www.wikidata.org/entity/Q3276763".data).getLast?
            = some hi
        ∧ (∀ v ∈ intcpu.sorted_rounded
            "2.7|http://www.wikidata.org/entity/Q3276763;3.9|http://www.wikidata.org/entity/Q3276763".data,
            lo ≤ v ∧ v ≤ hi)
        ∧ intcpu.parse_freqs_to_str
            "2.7|http://www.wikidata.org/entity/Q3276763;3.9|http://www.wikidata.org/entity/Q3276763".data
            = intcpu.trim_float ⟨lo, 3⟩ ++ "–".data
                ++ intcpu.trim_float ⟨hi, 3⟩ ++ "GHz".data :=
  ⟨by decide,
   claim_C4_min_max
     "2.7|http://www.wikidata.org/entity/Q3276763;3.9|http://www.wikidata.org/entity/Q3276763".data
     (by decide)⟩

/-! Lemmas about rounding half to even, for the capacity formatter claim. -/

theorem rne_eq_of_near {m n d : Int} (hd : 0 < d) (h : 2 * |m - n * d| < d) :
    rneInt m d = n := by
  have ha := le_abs_self (m - n * d)
  have hb := neg_abs_le (m - n * d)
  have h1 : 2 * (m - n * d) < d := by linarith
  have h2 : -d < 2 * (m - n * d) := by linarith
  have hqr : d * (m / d) + m % d = m := Int.ediv_add_emod m d
  have hr0 : 0 ≤ m % d := Int.emod_nonneg m (ne_of_gt hd)
  have hrd : m % d < d := Int.emod_lt_of_pos m hd
  have hkey : m - n * d = d * (m / d - n) + m % d := by
    rw [mul_sub]
    linarith [hqr, mul_comm n d]
  have hcase : m / d = n ∨ m / d = n - 1 := by
    by_contra hc
    push_neg at hc
    have h12 : n + 1 ≤ m / d ∨ m / d ≤ n - 2 := by omega
    rcases h12 with hA | hB
    · have hdle : d ≤ d * (m / d - n) := le_mul_of_one_le_right hd.le (by omega)
      linarith
    · have hdle : d * (m / d - n) ≤ d * (-2) := mul_le_mul_of_nonneg_left (by omega) hd.le
      have hneg : d * (-2) = -(2 * d) := by ring
      linarith
  rcases hcase with hqn | hqn
  · have hzero : d * (m / d - n) = 0 := by rw [hqn]; ring
    have h2r : 2 * (m % d) < d := by linarith
    rw [rneInt, if_pos h2r]
    exact hqn
  · have hone : d * (m / d - n) = -d := by rw [hqn]; ring
    have h2r : d < 2 * (m % d) := by linarith
    rw [rneInt, if_neg (by omega), if_pos h2r]
    omega

theorem nearInt_lt {x : Dec} {n : Int} (h : nearInt x n = true) :
    2 * |x.m - n * (10 : Int) ^ x.e| < (10 : Int) ^ x.e := by
  rw [nearInt, decide_eq_true_eq] at h
  have hcast : ((x.m - n * (10 : Int) ^ x.e).natAbs : Int) * 1000000000
      < (10 : Int) ^ x.e := by exact_mod_cast h
  have hna : (0 : Int) ≤ ((x.m - n * (10 : Int) ^ x.e).natAbs : Int) := Int.natCast_nonneg _
  have hmul : 2 * ((x.m - n * (10 : Int) ^ x.e).natAbs : Int)
      ≤ 1000000000 * ((x.m - n * (10 : Int) ^ x.e).natAbs : Int) :=
    mul_le_mul_of_nonneg_right (by norm_num) hna
  rw [Int.abs_eq_natAbs]
  linarith [mul_comm (1000000000 : Int) ((x.m - n * (10 : Int) ^ x.e).natAbs : Int)]

theorem pyRound_eq_of_nearInt {x : Dec} {n : Int} (h : nearInt x n = true) :
    pyRound x = n :=
  rne_eq_of_near (pow_pos (by norm_num) x.e) (nearInt_lt h)

theorem nearInt_iff_rat (x : Dec) (n : Int) :
    nearInt x n = true ↔ |Dec.toRat x - (n : ℚ)| < 1 / 1000000000 := by
  rw [nearInt, decide_eq_true_eq, Dec.toRat]
  have hd : (0 : ℚ) < (10 : ℚ) ^ x.e := by positivity
  have heq : (x.m : ℚ) / (10 : ℚ) ^ x.e - (n : ℚ)
      = ((x.m - n * (10 : Int) ^ x.e : Int) : ℚ) / (10 : ℚ) ^ x.e := by
    push_cast
    field_simp
    ring
  rw [heq, abs_div, abs_of_pos hd, div_lt_div_iff₀ hd (by norm_num : (0 : ℚ) < 1000000000),
    one_mul, ← Int.cast_abs, Int.abs_eq_natAbs]
  constructor
  · intro h
    exact_mod_cast h
  · intro h
    exact_mod_cast h

theorem toRat_nonpos_iff (x : Dec) : x.m ≤ 0 ↔ Dec.toRat x ≤ 0 := by
  rw [Dec.toRat]
  have hd : (0 : ℚ) < (10 : ℚ) ^ x.e := by positivity
  constructor
  · intro h
    apply div_nonpos_of_nonpos_of_nonneg _ hd.le
    exact_mod_cast h
  · intro h
    rcases div_nonpos_iff.mp h with ⟨h1, h2⟩ | ⟨h1, h2⟩
    · exact absurd hd (not_lt.mpr h2)
    · exact_mod_cast h1

theorem nearInt_pyRound_false_iff (x : Dec) :
    nearInt x (pyRound x) = false ↔ ∀ n : Int, nearInt x n = false := by
  constructor
  · intro h n
    cases hval : nearInt x n
    · rfl
    · have hpr := pyRound_eq_of_nearInt hval
      rw [hpr, hval] at h
      cases h
  · intro h
    exact h (pyRound x)

theorem am_format_some (x : Dec) :
    am_atgpu._format_memory_capacity (some x)
      = if x.m ≤ 0 then "0GB".data
        else if nearInt x (pyRound x) = true then intChars (pyRound x) ++ "GB".data
        else rstrip (rstrip (fmt3 x) '0') '.' ++ "GB".data := rfl

/-- C7: for a present numeric memory size the capacity formatter returns
0GB on non-positive values, the integer with GB suffix when the value lies
within 1e-9 of an integer (the nearInt test, shown equivalent to the
rational statement below), and otherwise the .3f rendering with trailing
zeros and a trailing point stripped, then GB; in particular the values 0,
8, 8.5 and -1 format to 0GB, 8GB, 8.5GB and 0GB in both exporters. -/
theorem claim_C7_capacity_formatter :
    (∀ x : Dec, x.m ≤ 0 → am_atgpu._format_memory_capacity (some x) = "0GB".data)
    ∧ (∀ (x : Dec) (n : Int), 0 < x.m → nearInt x n = true →
        am_atgpu._format_memory_capacity (some x) = intChars n ++ "GB".data)
    ∧ (∀ x : Dec, 0 < x.m → nearInt x (pyRound x) = false →
        am_atgpu._format_memory_capacity (some x)
          = rstrip (rstrip (fmt3 x) '0') '.' ++ "GB".data)
    ∧ (∀ (x : Dec) (n : Int),
        nearInt x n = true ↔ |Dec.toRat x - (n : ℚ)| < 1 / 1000000000)
    ∧ (∀ x : Dec, x.m ≤ 0 ↔ Dec.toRat x ≤ 0)
    ∧ (∀ x : Dec, nearInt x (pyRound x) = false ↔ ∀ n : Int, nearInt x n = false)
    ∧ am_atgpu._format_memory_capacity (some ⟨0, 0⟩) = "0GB".data
    ∧ am_atgpu._format_memory_capacity (some ⟨8, 0⟩) = "8GB".data
    ∧ am_atgpu._format_memory_capacity (some ⟨85, 1⟩) = "8.5GB".data
    ∧ am_atgpu._format_memory_capacity (some ⟨-1, 0⟩) = "0GB".data
    ∧ nvgpu._format_memory_capacity (some ⟨0, 0⟩) = "0GB".data
    ∧ nvgpu._format_memory_capacity (some ⟨8, 0⟩) = "8GB".data
    ∧ nvgpu._format_memory_capacity (some ⟨85, 1⟩) = "8.5GB".data
    ∧ nvgpu._format_memory_capacity (some ⟨-1, 0⟩) = "0GB".data := by
  refine ⟨?_, ?_, ?_, nearInt_iff_rat, toRat_nonpos_iff, nearInt_pyRound_false_iff,
    by decide, by decide, by decide, by decide, by decide, by decide, by decide, by decide⟩
  · intro x h
    rw [am_format_some, if_pos h]
  · intro x n hpos hnear
    have hpr : pyRound x = n := pyRound_eq_of_nearInt hnear
    rw [am_format_some, if_neg (not_le.mpr hpos), hpr, if_pos hnear]
  · intro x hpos hfar
    rw [am_format_some, if_neg (not_le.mpr hpos), if_neg (by rw [hfar]; exact Bool.false_ne_true)]

/-- C7 witness: each guarded branch of the capacity formatter claim at a
concrete input. -/
theorem claim_C7_witness :
    am_atgpu._format_memory_capacity (some ⟨-5, 1⟩) = "0GB".data
    ∧ am_atgpu._format_memory_capacity (some ⟨80000000001, 10⟩)
        = intChars 8 ++ "GB".data
    ∧ am_atgpu._format_memory_capacity (some ⟨85, 1⟩)
        = rstrip (rstrip (fmt3 ⟨85, 1⟩) '0') '.' ++ "GB".data :=
  ⟨claim_C7_capacity_formatter.1 ⟨-5, 1⟩ (by decide),
   claim_C7_capacity_formatter.2.1 ⟨80000000001, 10⟩ 8 (by decide) (by decide),
   claim_C7_capacity_formatter.2.2.1 ⟨85, 1⟩ (by decide) (by decide)⟩

end PartsData
